import Mathlib

/-
Verification of the build-pipeline core:
  * command dispatcher and failure-domain policy (src/packages/build/src/commands/run_command.js)
  * configuration mutation / backup / restore subsystem (src/unnamed/part_001)
  * redirects side-file writer of the functions plugin (src/unnamed/part_000)

The file system is modelled as an association list from paths to file contents,
together with a trace of the file-system operations performed.  All asynchronous
code is single-threaded cooperative (spec section 5); `Promise.all` of the three
independent per-file operations is modelled as left-to-right sequencing.
Fallible operations live in an option-returning state monad `M`: a `none` result
models a rejected promise that aborts the whole operation.
-/

/-- A file-system operation, recorded in the trace. -/
inductive FSOp where
  | existsOp (p : String)
  | readOp (p : String)
  | writeOp (p : String) (c : String)
  | unlinkOp (p : String)
  | copyOp (src : String) (dst : String)
  | mkdirOp (p : String)
deriving DecidableEq, Repr

/-- The on-disk state: a finite map from paths to file contents. -/
abbrev FS := List (String × String)

def fsLookup (fs : FS) (p : String) : Option String :=
  (fs.find? (fun e => e.1 == p)).map (fun e => e.2)

def fsErase (fs : FS) (p : String) : FS :=
  fs.filter (fun e => e.1 != p)

def fsWrite (fs : FS) (p : String) (c : String) : FS :=
  (p, c) :: fsErase fs p

/-- The whole state threaded through the embedded code: the file system plus the
trace of operations performed so far (the "file-system spy" of the spec). -/
structure FSState where
  fs : FS
  trace : List FSOp
deriving DecidableEq, Repr

/-- The effect monad: state passing over `FSState`; `none` models a rejected
promise (an exception escaping the modelled code). -/
abbrev M (α : Type) := FSState → Option (α × FSState)

instance : Monad M where
  pure a := fun s => some (a, s)
  bind m f := fun s =>
    match m s with
    | none => none
    | some (a, s1) => f a s1

@[simp] theorem run_pure {α : Type} (a : α) (s : FSState) :
    (pure a : M α) s = some (a, s) := rfl

@[simp] theorem run_bind {α β : Type} (m : M α) (f : α → M β) (s : FSState) :
    (m >>= f) s =
      match m s with
      | none => none
      | some (a, s1) => f a s1 := rfl

/-- Model of the `path-exists` package: `fs.access` on `undefined` rejects and the
rejection is swallowed, so a missing ("undefined") path reports `false` without
touching the disk. -/
def pathExists (p : Option String) : M Bool := fun s =>
  match p with
  | none => some (false, s)
  | some p => some ((fsLookup s.fs p).isSome, { s with trace := s.trace ++ [FSOp.existsOp p] })

/-- Promisified `fs.unlink`: rejects (ENOENT) when the file does not exist. -/
def pUnlink (p : String) : M Unit := fun s =>
  if (fsLookup s.fs p).isSome then
    some ((), { fs := fsErase s.fs p, trace := s.trace ++ [FSOp.unlinkOp p] })
  else none

/-- Promisified `fs.writeFile`. -/
def pWriteFile (p : String) (c : String) : M Unit := fun s =>
  some ((), { fs := fsWrite s.fs p c, trace := s.trace ++ [FSOp.writeOp p c] })

/-- Reading an existing file; rejects when the file does not exist. -/
def readFileM (p : String) : M String := fun s =>
  match fsLookup s.fs p with
  | some c => some (c, { s with trace := s.trace ++ [FSOp.readOp p] })
  | none => none

/-- Model of the `cp-file` package: rejects when the source does not exist or the
destination path is `undefined`. -/
def cpFile (src : Option String) (dst : Option String) : M Unit := fun s =>
  match src, dst with
  | some src, some dst =>
    match fsLookup s.fs src with
    | some c =>
      some ((), { fs := fsWrite s.fs dst c, trace := s.trace ++ [FSOp.copyOp src dst] })
    | none => none
  | _, _ => none

/-- Model of the `make-dir` package: directories are not part of the content map,
so only the trace records the operation. -/
def makeDir (p : String) : M Unit := fun s =>
  some ((), { s with trace := s.trace ++ [FSOp.mkdirOp p] })

/-- Source `deleteNoError` (src/unnamed/part_001): unlink, swallowing every error
(a missing file, or an `undefined` path). -/
def deleteNoError (p : Option String) : M Unit := fun s =>
  match p with
  | none => some ((), s)
  | some p =>
    if (fsLookup s.fs p).isSome then
      some ((), { fs := fsErase s.fs p, trace := s.trace ++ [FSOp.unlinkOp p] })
    else some ((), s)

/-- Model of `fs-extra`'s `appendFile`: appends to an existing file, creates it
otherwise. -/
def appendFile (p : String) (c : String) : M Unit := fun s =>
  match fsLookup s.fs p with
  | some old =>
    some ((), { fs := fsWrite s.fs p (old ++ c), trace := s.trace ++ [FSOp.writeOp p (old ++ c)] })
  | none =>
    some ((), { fs := fsWrite s.fs p c, trace := s.trace ++ [FSOp.writeOp p c] })

/-
Configuration data model.  The configuration value manipulated by the mutation
subsystem.  Header and redirect rules are kept opaque (strings); the parse /
serialize collaborators are out of scope (spec section 1) and modelled below.
-/

/-- A context-scoped section of the configuration. -/
structure CtxConfig where
  headers : Option (List String)
  redirects : Option (List String)
deriving DecidableEq, Repr

/-- The deploy configuration: the two side-file keys the subsystem must
recognize, context-scoped sections, and the remaining opaque keys. -/
structure Config where
  headers : Option (List String)
  redirects : Option (List String)
  contexts : List (String × CtxConfig)
  rest : List (String × List String)
deriving DecidableEq, Repr

def emptyConfig : Config := ⟨none, none, [], []⟩

/-- Mutation operation kinds, from the spec's mutation entry shape. -/
inductive MutOp where
  | replace
  | append
deriving DecidableEq, Repr

/-- A Configuration Mutation log entry (spec section 6). -/
structure Mutation where
  kind : String
  op : MutOp
  value : List String
deriving DecidableEq, Repr

def restLookup (r : List (String × List String)) (k : String) : Option (List String) :=
  (r.find? (fun kv => kv.1 == k)).map (fun kv => kv.2)

def setKey (c : Config) (m : Mutation) : Config :=
  let combine : Option (List String) → List String := fun old =>
    match m.op with
    | MutOp.replace => m.value
    | MutOp.append => old.getD [] ++ m.value
  if m.kind == "headers" then { c with headers := some (combine c.headers) }
  else if m.kind == "redirects" then { c with redirects := some (combine c.redirects) }
  else
    { c with rest := (m.kind, combine (restLookup c.rest m.kind)) ::
        c.rest.filter (fun kv => kv.1 != m.kind) }

/-- Modelled from the spec: `applyMutations` (external `./apply` module, absent from
the sources) is a strict left-fold of the ordered mutation log over a starting
configuration; later mutations override earlier ones for the same key. -/
def applyMutations (c : Config) (configMutations : List Mutation) : Config :=
  configMutations.foldl setKey c

/-- Modelled from the spec: `ensureConfigPriority` (external `../context` module,
absent from the sources) resolves context/branch-scoped settings of the
configuration to concrete top-level values: a context section matching the
current context name (or else the branch name) is folded onto the top level,
the scoped value taking priority, and context sections are dropped. -/
def ensureConfigPriority (c : Config) (context : String) (branch : String) : Config :=
  let pick := fun (name : String) => (c.contexts.find? (fun kv => kv.1 == name)).map (fun kv => kv.2)
  let sub := (pick context).getD ((pick branch).getD ⟨none, none⟩)
  { headers := (sub.headers).orElse (fun _ => c.headers)
    redirects := (sub.redirects).orElse (fun _ => c.redirects)
    contexts := []
    rest := c.rest }

def mergeOptList : Option (List String) → Option (List String) → Option (List String)
  | none, none => none
  | some a, none => some a
  | none, some b => some b
  | some a, some b => some (a ++ b)

def mergeRest (a b : List (String × List String)) : List (String × List String) :=
  a.map (fun kv => (kv.1, kv.2 ++ (restLookup b kv.1).getD [])) ++
    b.filter (fun kv => (restLookup a kv.1).isNone)

/-- Modelled from the spec: `mergeConfigs` (external `../merge` module, absent from
the sources) deep-merges the resolved inline configuration onto the existing
configuration; array-valued fields are concatenated (existing rules first, inline
rules second), the rest where only one side has a value keeps that value. -/
def mergeConfigs (base : Config) (inl : Config) : Config :=
  { headers := mergeOptList base.headers inl.headers
    redirects := mergeOptList base.redirects inl.redirects
    contexts := base.contexts ++ inl.contexts
    rest := mergeRest base.rest inl.rest }

/-- Modelled from the spec: `simplifyConfig` (external `../simplify` module, absent
from the sources) structurally simplifies, dropping empty sections before
serializing. -/
def simplifyConfig (c : Config) : Config :=
  let dropEmpty : Option (List String) → Option (List String) := fun o =>
    match o with
    | some [] => none
    | o => o
  { headers := dropEmpty c.headers
    redirects := dropEmpty c.redirects
    contexts := c.contexts
    rest := c.rest.filter (fun kv => !kv.2.isEmpty) }

/-- Modelled from the spec: the configuration serializer (external
`../utils/toml`, absent from the sources) is an out-of-scope collaborator,
modelled as a line-based rendering of the configuration value. -/
def serializeToml (c : Config) : String :=
  String.intercalate "\n"
    ((c.headers.getD []).map (fun r => "header " ++ r) ++
      (c.redirects.getD []).map (fun r => "redirect " ++ r) ++
      c.rest.map (fun kv => kv.1 ++ " " ++ String.intercalate "," kv.2))

/-- Modelled from the spec: the configuration parser (external, out of scope),
the partial inverse of `serializeToml`. -/
def parseToml (content : String) : Config :=
  let ls := content.splitOn "\n"
  let hs := ls.filterMap (fun l => if l.startsWith "header " then some (l.drop 7) else none)
  let rs := ls.filterMap (fun l => if l.startsWith "redirect " then some (l.drop 9) else none)
  { headers := if hs.isEmpty then none else some hs
    redirects := if rs.isEmpty then none else some rs
    contexts := []
    rest := [] }

/-- Modelled from the spec: side-file parsing (external `../headers` and
`../redirects` modules, absent from the sources) reads one rule per line. -/
def parseRulesFile (content : String) : List String :=
  (content.splitOn "\n").filter (fun l => !(l == ""))

/-- Source `parseOptionalConfig` (external `../parse` module, absent from the
sources): per the spec, absence of the configuration file is not an error and is
treated as an empty configuration. -/
def parseOptionalConfig (configPath : String) : M Config := do
  let ex ← pathExists (some configPath)
  if ex then
    let content ← readFileM configPath
    pure (parseToml content)
  else
    pure emptyConfig

/-- Modelled from the spec: `addConfigHeaders` (external `../headers` module,
absent from the sources) folds headers declared in the side file at
`headersPath` into the configuration; a missing path or file leaves the
configuration unchanged. -/
def addConfigHeaders (c : Config) (headersPath : Option String) : M Config := do
  match headersPath with
  | none => pure c
  | some p =>
    let ex ← pathExists (some p)
    if ex then
      let content ← readFileM p
      pure { c with headers := mergeOptList c.headers (some (parseRulesFile content)) }
    else
      pure c

/-- Modelled from the spec: `addConfigRedirects` (external `../redirects` module,
absent from the sources), the redirects analogue of `addConfigHeaders`. -/
def addConfigRedirects (c : Config) (redirectsPath : Option String) : M Config := do
  match redirectsPath with
  | none => pure c
  | some p =>
    let ex ← pathExists (some p)
    if ex then
      let content ← readFileM p
      pure { c with redirects := mergeOptList c.redirects (some (parseRulesFile content)) }
    else
      pure c

/-
Embedding of src/unnamed/part_001 proper.
-/

/-- The path arguments destructured by `updateConfig` / `restoreConfig`.  The two
side-file paths may be `undefined` in the source (`deleteSideFile` checks for
it); the build directory and configuration path are always supplied. -/
structure ConfigPaths where
  buildDir : String
  configPath : String
  headersPath : Option String
  redirectsPath : Option String
  context : String
  branch : String
deriving DecidableEq, Repr

/-- Source `getTempDir`. -/
def getTempDir (buildDir : String) : String := buildDir ++ "/.netlify/deploy"

/-- Source `mergeWithConfig`: if the configuration file exists, deeply merge the
changes (`mergeConfigs([config, normalizedInlineConfig])`). -/
def mergeWithConfig (normalizedInlineConfig : Config) (configPath : String) : M Config := do
  let config ← parseOptionalConfig configPath
  pure (mergeConfigs config normalizedInlineConfig)

/-- Source `saveConfig`: serialize the changes to the configuration file. -/
def saveConfig (configPath : String) (simplifiedConfig : Config) : M Unit :=
  pWriteFile configPath (serializeToml simplifiedConfig)

/-- Source property access `normalizedInlineConfig[propName]`. -/
def getProp (c : Config) (propName : String) : Option (List String) :=
  if propName == "headers" then c.headers
  else if propName == "redirects" then c.redirects
  else restLookup c.rest propName

/-- Source `deleteSideFile`: deletes `_headers` / `_redirects` if the
corresponding key was changed, unless the path is `undefined` or the file does
not exist. -/
def deleteSideFile (filePath : Option String) (propName : String)
    (normalizedInlineConfig : Config) : M Unit := do
  if getProp normalizedInlineConfig propName = none then
    pure ()
  else
    match filePath with
    | none => pure ()
    | some fp =>
      let ex ← pathExists (some fp)
      if ex then pUnlink fp else pure ()

/-- Source `backupFile`: first delete any stale backup (ignoring errors), then
copy the original into the backup location only if the original exists. -/
def backupFile (original : Option String) (backup : String) : M Unit := do
  deleteNoError (some backup)
  let ex ← pathExists original
  if ex then cpFile original (some backup) else pure ()

/-- Source `backupConfig`: ensure the build-scoped temporary directory exists and
back up the three files (their `Promise.all` modelled as sequencing). -/
def backupConfig (p : ConfigPaths) : M Unit := do
  let tempDir := getTempDir p.buildDir
  makeDir tempDir
  backupFile (some p.configPath) (tempDir ++ "/netlify.toml")
  backupFile p.headersPath (tempDir ++ "/_headers")
  backupFile p.redirectsPath (tempDir ++ "/_redirects")

/-- Source `updateConfig`: persist configuration changes to the configuration
file; a no-op when the mutation log is empty. -/
def updateConfig (configMutations : List Mutation) (p : ConfigPaths) : M Unit := do
  if configMutations.length == 0 then
    pure ()
  else
    let inlineConfig := applyMutations emptyConfig configMutations
    let normalizedInlineConfig := ensureConfigPriority inlineConfig p.context p.branch
    let updatedConfig ← mergeWithConfig normalizedInlineConfig p.configPath
    let configWithHeaders ← addConfigHeaders updatedConfig p.headersPath
    let finalConfig ← addConfigRedirects configWithHeaders p.redirectsPath
    let simplifiedConfig := simplifyConfig finalConfig
    backupConfig p
    saveConfig p.configPath simplifiedConfig
    deleteSideFile p.headersPath "headers" normalizedInlineConfig
    deleteSideFile p.redirectsPath "redirects" normalizedInlineConfig

/-- Source `copyOrDelete`: copy the backup over the live path if the backup
exists, otherwise delete the live path (ignoring errors). -/
def copyOrDelete (src : String) (dest : Option String) : M Unit := do
  let ex ← pathExists (some src)
  if ex then cpFile (some src) dest else deleteNoError dest

/-- Source `restoreConfig`: restore the three files from their backups; a no-op
when the mutation log is empty. -/
def restoreConfig (configMutations : List Mutation) (p : ConfigPaths) : M Unit := do
  if configMutations.length == 0 then
    pure ()
  else
    let tempDir := getTempDir p.buildDir
    copyOrDelete (tempDir ++ "/netlify.toml") (some p.configPath)
    copyOrDelete (tempDir ++ "/_headers") p.headersPath
    copyOrDelete (tempDir ++ "/_redirects") p.redirectsPath

/-
Embedding of src/packages/build/src/commands/run_command.js.

The event-category predicates come from the external `./get` module (absent from
the sources); the executors, the structured logger, the timing wrapper and the
post-processing of the raw result (`getConstants`, `logCommand`,
`measureDuration`, `fireCoreCommand`, `fireBuildCommand`, `firePluginCommand`,
`getCommandReturn`) are external collaborators, abstracted as the `fire`
function parameter below.
-/

/-- Modelled from the spec: events are partitioned into three fixed, process-wide
categories (spec section 3). -/
inductive EventCategory where
  | alwaysEligible
  | failureOnly
  | successOnly
deriving DecidableEq, Repr

/-- An event: a lifecycle-phase identifier together with its fixed category. -/
structure Event where
  name : String
  category : EventCategory
deriving DecidableEq, Repr

/-- Modelled from the spec: `runsAlsoOnBuildFailure` (external `./get` module,
absent from the sources) holds for the always-eligible and failure-only
categories. -/
def runsAlsoOnBuildFailure (e : Event) : Bool :=
  match e.category with
  | EventCategory.alwaysEligible => true
  | EventCategory.failureOnly => true
  | EventCategory.successOnly => false

/-- Modelled from the spec: `runsOnlyOnBuildFailure` (external `./get` module,
absent from the sources) holds exactly for the failure-only category. -/
def runsOnlyOnBuildFailure (e : Event) : Bool :=
  match e.category with
  | EventCategory.failureOnly => true
  | _ => false

/-- Source `shouldRunCommand`: the Failure-Domain Classifier. -/
def shouldRunCommand (event : Event) (packageName : String) (error : Option String)
    (failedPlugins : List String) : Bool :=
  if failedPlugins.contains packageName then false
  else if error.isSome then runsAlsoOnBuildFailure event
  else !runsOnlyOnBuildFailure event

/-- The value returned by `runCommand`: the spread fields of the post-processed
command result, plus the `newIndex` property.  The source's ineligible branch
returns the empty object literal: no fields and no `newIndex`. -/
structure RunOutcome where
  fields : List (String × String)
  newIndex : Option Nat
deriving DecidableEq, Repr

/-- Source `runCommand`: consult the classifier; if ineligible return the empty
object, otherwise fire the command through the external executors (abstracted as
`fire`) and return its post-processed fields spread together with
`newIndex = index + 1`. -/
def runCommand (fire : Event → List (String × String)) (event : Event)
    (packageName : String) (index : Nat) (error : Option String)
    (failedPlugins : List String) : RunOutcome :=
  if shouldRunCommand event packageName error failedPlugins then
    { fields := fire event, newIndex := some (index + 1) }
  else
    { fields := [], newIndex := none }

/-
Embedding of the redirects side-file writer of src/unnamed/part_000.
-/

/-- A redirect entry handed to `writeRedirectsFile`; `rest` holds the
unrecognized extension keys gathered by the object-rest pattern. -/
structure Redirect where
  fromPath : String
  isPermanent : Bool
  redirectInBrowser : Bool
  force : Bool
  toPath : String
  statusCode : Option String
  rest : List (String × String)
deriving DecidableEq, Repr

/-- A rewrite entry handed to `writeRedirectsFile`. -/
structure Rewrite where
  fromPath : String
  toPath : String
deriving DecidableEq, Repr

/-- Source `HEADER_COMMENT` constant. -/
def HEADER_COMMENT : String := "## Created with netlify functions plugin"

/-- Prefix test on character lists (first argument is the candidate prefix). -/
def listPrefix : List Char → List Char → Bool
  | [], _ => true
  | _ :: _, [] => false
  | a :: as, b :: bs => a == b && listPrefix as bs

/-- Substring test on character lists (second argument is the needle). -/
def listHasSub (hay needle : List Char) : Bool :=
  match hay with
  | [] => needle.isEmpty
  | _ :: t => listPrefix needle hay || listHasSub t needle

/-- Substring test, modelling `fileContents.indexOf(HEADER_COMMENT) >= 0`. -/
def containsMarker (content : String) : Bool :=
  listHasSub content.toList HEADER_COMMENT.toList

/-- The serialized line for one redirect entry: `fromPath`, `toPath` and the
status first, then the remaining key-value pairs, dropping values that contain
spaces (with a warning, not modelled). -/
def redirectLine (r : Redirect) : String :=
  let status := if r.isPermanent then "301" else "302"
  let status := match r.statusCode with
    | some c => c
    | none => status
  let status := if r.force then status ++ "!" else status
  let pieces := [r.fromPath, r.toPath, status] ++
    r.rest.filterMap (fun kv =>
      if (kv.2.toList).contains ' ' then none else some (kv.1 ++ "=" ++ kv.2))
  String.intercalate "  " pieces

/-- The serialized line for one rewrite entry. -/
def rewriteLine (r : Rewrite) : String :=
  r.fromPath ++ "  " ++ r.toPath ++ "  200"

/-- The full machine-generated body written by `writeRedirectsFile`. -/
def redirectsData (redirects : List Redirect) (rewrites : List Rewrite) : String :=
  HEADER_COMMENT ++ "\n\n" ++
    String.intercalate "\n" (redirects.map redirectLine ++ rewrites.map rewriteLine)

/-- Source `writeRedirectsFile`: a no-op when there is nothing to write;
otherwise write the `_redirects` file, appending to a pre-existing file that
lacks the header-comment marker (user-authored rules) instead of overwriting. -/
def writeRedirectsFile (buildDir : String) (redirects : List Redirect)
    (rewrites : List Rewrite) : M Unit := do
  if redirects.isEmpty && rewrites.isEmpty then
    pure ()
  else
    let filePath := buildDir ++ "/_redirects"
    let fileExists ← pathExists (some filePath)
    let appendToFile ←
      if fileExists then do
        let fileContents ← readFileM filePath
        pure (!containsMarker fileContents)
      else
        pure false
    let data := redirectsData redirects rewrites
    if appendToFile then appendFile filePath ("\n\n" ++ data)
    else pWriteFile filePath data

/-
Helpers for stating concrete executions.
-/

/-- The file-system contents after running `m` from `s`, when it succeeds. -/
def runFs (m : M Unit) (s : FSState) : Option FS :=
  (m s).map (fun x => x.2.fs)

/-- The operation trace after running `m` from `s`, when it succeeds. -/
def runTrace (m : M Unit) (s : FSState) : Option (List FSOp) :=
  (m s).map (fun x => x.2.trace)

/-- The content at path `p` after running `m` from `s`: `none` when `m` fails,
`some v` with `v` the (optional) content otherwise. -/
def runLookup (m : M Unit) (s : FSState) (p : String) : Option (Option String) :=
  (m s).map (fun x => fsLookup x.2.fs p)

/-
Basic lemmas about the file-system map.
-/

theorem fsLookup_nil (q : String) : fsLookup [] q = none := rfl

theorem find?_filter_ne (t : FS) (p q : String) (h : ¬q = p) :
    List.find? (fun e => e.1 == q) (t.filter (fun e => e.1 != p)) =
      List.find? (fun e => e.1 == q) t := by
  induction t with
  | nil => rfl
  | cons e t ih =>
    rw [List.filter_cons]
    by_cases hep : e.1 = p
    · have h1 : (e.1 != p) = false := by simp [hep]
      have h2 : (e.1 == q) = false := by
        refine beq_eq_false_iff_ne.mpr ?_
        rw [hep]
        exact fun hh => h hh.symm
      rw [h1, if_neg (by simp)]
      rw [ih, List.find?_cons, h2]
    · have h1 : (e.1 != p) = true := by simp [hep]
      rw [h1, if_pos rfl]
      rw [List.find?_cons, List.find?_cons]
      cases hq : (e.1 == q) with
      | true => rfl
      | false => exact ih

theorem fsLookup_fsErase (fs : FS) (p q : String) :
    fsLookup (fsErase fs p) q = if q = p then none else fsLookup fs q := by
  by_cases h : q = p
  · subst h
    simp only [fsLookup, fsErase, if_pos rfl]
    have : List.find? (fun e => e.1 == q) (fs.filter (fun e => e.1 != q)) = none := by
      rw [List.find?_eq_none]
      intro x hx
      rcases List.mem_filter.mp hx with ⟨-, hx2⟩
      simp only [bne_iff_ne, ne_eq] at hx2
      simp [hx2]
    simp [this]
  · simp only [fsLookup, fsErase, if_neg h]
    rw [find?_filter_ne fs p q h]

theorem fsLookup_fsWrite (fs : FS) (p c : String) (q : String) :
    fsLookup (fsWrite fs p c) q = if q = p then some c else fsLookup fs q := by
  by_cases h : q = p
  · subst h
    simp [fsLookup, fsWrite, List.find?]
  · have hne : (p == q) = false := by
      simp
      exact fun hh => h hh.symm
    simp only [fsWrite, fsLookup, List.find?, hne, if_neg h]
    have := fsLookup_fsErase fs p q
    simp only [fsLookup, if_neg h] at this
    exact this

/-
Characterization lemmas for the backup / restore / persist operations.
-/

theorem copyOrDelete_run (src d : String) (s : FSState) :
    ∃ s', copyOrDelete src (some d) s = some ((), s') ∧
      ∀ q, fsLookup s'.fs q = if q = d then fsLookup s.fs src else fsLookup s.fs q := by
  cases hsrc : fsLookup s.fs src with
  | some c =>
    refine ⟨⟨fsWrite s.fs d c, s.trace ++ [FSOp.existsOp src] ++ [FSOp.copyOp src d]⟩, ?_, ?_⟩
    · simp [copyOrDelete, run_bind, pathExists, hsrc, cpFile]
    · intro q
      show fsLookup (fsWrite s.fs d c) q = _
      rw [fsLookup_fsWrite]
  | none =>
    by_cases hd : (fsLookup s.fs d).isSome
    · refine ⟨⟨fsErase s.fs d, s.trace ++ [FSOp.existsOp src] ++ [FSOp.unlinkOp d]⟩, ?_, ?_⟩
      · simp [copyOrDelete, run_bind, pathExists, hsrc, deleteNoError, hd]
      · intro q
        show fsLookup (fsErase s.fs d) q = _
        rw [fsLookup_fsErase]
    · have hdn : fsLookup s.fs d = none := Option.not_isSome_iff_eq_none.mp hd
      refine ⟨⟨s.fs, s.trace ++ [FSOp.existsOp src]⟩, ?_, ?_⟩
      · simp [copyOrDelete, run_bind, pathExists, hsrc, deleteNoError, hdn]
      · intro q
        by_cases hq : q = d <;> simp [hq, hsrc, hdn]

theorem copyOrDelete_absent_run (src : String) (d : Option String) (s : FSState)
    (h : fsLookup s.fs src = none) :
    ∃ s', copyOrDelete src d s = some ((), s') ∧
      ∀ q, fsLookup s'.fs q = if d = some q then none else fsLookup s.fs q := by
  cases d with
  | none =>
    refine ⟨⟨s.fs, s.trace ++ [FSOp.existsOp src]⟩, ?_, ?_⟩
    · simp [copyOrDelete, run_bind, pathExists, h, deleteNoError]
    · intro q
      simp
  | some dp =>
    by_cases hd : (fsLookup s.fs dp).isSome
    · refine ⟨⟨fsErase s.fs dp, s.trace ++ [FSOp.existsOp src] ++ [FSOp.unlinkOp dp]⟩, ?_, ?_⟩
      · simp [copyOrDelete, run_bind, pathExists, h, deleteNoError, hd]
      · intro q
        show fsLookup (fsErase s.fs dp) q = _
        rw [fsLookup_fsErase]
        by_cases hq : dp = q
        · simp [hq]
        · have hq2 : ¬q = dp := fun hh => hq hh.symm
          have : ¬(some dp = some q) := fun hh => hq (Option.some.inj hh)
          simp [hq2, this]
    · have hdn : fsLookup s.fs dp = none := Option.not_isSome_iff_eq_none.mp hd
      refine ⟨⟨s.fs, s.trace ++ [FSOp.existsOp src]⟩, ?_, ?_⟩
      · simp [copyOrDelete, run_bind, pathExists, h, deleteNoError, hdn]
      · intro q
        by_cases hq : dp = q
        · subst hq
          simp [hdn]
        · have : ¬(some dp = some q) := fun hh => hq (Option.some.inj hh)
          simp [this]

theorem deleteNoError_some_run (p : String) (s : FSState) :
    ∃ s' t, deleteNoError (some p) s = some ((), s') ∧ s'.trace = s.trace ++ t ∧
      (∀ q, ¬q = p → fsLookup s'.fs q = fsLookup s.fs q) ∧
      fsLookup s'.fs p = none ∧
      (∀ x, FSOp.unlinkOp x ∈ t → x = p) := by
  by_cases hp : (fsLookup s.fs p).isSome
  · refine ⟨⟨fsErase s.fs p, s.trace ++ [FSOp.unlinkOp p]⟩, [FSOp.unlinkOp p], ?_, rfl, ?_, ?_, ?_⟩
    · simp [deleteNoError, hp]
    · intro q hq
      show fsLookup (fsErase s.fs p) q = _
      rw [fsLookup_fsErase]
      simp [hq]
    · show fsLookup (fsErase s.fs p) p = none
      rw [fsLookup_fsErase]
      simp
    · intro x hx
      simpa using hx
  · have hpn := Option.not_isSome_iff_eq_none.mp hp
    refine ⟨s, [], ?_, by simp, fun q _ => rfl, hpn, by simp⟩
    simp [deleteNoError, hpn]

theorem backupFile_run (orig : Option String) (b : String) (s : FSState) :
    ∃ s' t, backupFile orig b s = some ((), s') ∧ s'.trace = s.trace ++ t ∧
      (∀ q, ¬q = b → fsLookup s'.fs q = fsLookup s.fs q) ∧
      (∀ x, FSOp.unlinkOp x ∈ t → x = b) := by
  obtain ⟨s1, t1, e1, ht1, hpres1, hb1, hunl1⟩ := deleteNoError_some_run b s
  cases orig with
  | none =>
    refine ⟨s1, t1, ?_, ht1, hpres1, hunl1⟩
    simp [backupFile, run_bind, e1, pathExists]
  | some o =>
    cases ho : fsLookup s1.fs o with
    | none =>
      refine ⟨⟨s1.fs, s1.trace ++ [FSOp.existsOp o]⟩, t1 ++ [FSOp.existsOp o], ?_, ?_, hpres1, ?_⟩
      · simp [backupFile, run_bind, e1, pathExists, ho]
      · rw [ht1, List.append_assoc]
      · intro x hx
        rcases List.mem_append.mp hx with h | h
        · exact hunl1 x h
        · simp at h
    | some c =>
      refine ⟨⟨fsWrite s1.fs b c, s1.trace ++ [FSOp.existsOp o] ++ [FSOp.copyOp o b]⟩,
        t1 ++ [FSOp.existsOp o] ++ [FSOp.copyOp o b], ?_, ?_, ?_, ?_⟩
      · simp [backupFile, run_bind, e1, pathExists, ho, cpFile]
      · rw [ht1]
        simp [List.append_assoc]
      · intro q hq
        show fsLookup (fsWrite s1.fs b c) q = _
        rw [fsLookup_fsWrite]
        rw [if_neg hq]
        exact hpres1 q hq
      · intro x hx
        rcases List.mem_append.mp hx with h | h
        · rcases List.mem_append.mp h with h2 | h2
          · exact hunl1 x h2
          · simp at h2
        · simp at h

theorem backupConfig_run (p : ConfigPaths) (s : FSState) :
    ∃ s' t, backupConfig p s = some ((), s') ∧ s'.trace = s.trace ++ t ∧
      (∀ q, ¬q = getTempDir p.buildDir ++ "/netlify.toml" →
        ¬q = getTempDir p.buildDir ++ "/_headers" →
        ¬q = getTempDir p.buildDir ++ "/_redirects" →
        fsLookup s'.fs q = fsLookup s.fs q) ∧
      (∀ x, FSOp.unlinkOp x ∈ t →
        x = getTempDir p.buildDir ++ "/netlify.toml" ∨
        x = getTempDir p.buildDir ++ "/_headers" ∨
        x = getTempDir p.buildDir ++ "/_redirects") := by
  obtain ⟨s1, t1, e1, ht1, hpres1, hunl1⟩ :=
    backupFile_run (some p.configPath) (getTempDir p.buildDir ++ "/netlify.toml")
      ⟨s.fs, s.trace ++ [FSOp.mkdirOp (getTempDir p.buildDir)]⟩
  obtain ⟨s2, t2, e2, ht2, hpres2, hunl2⟩ :=
    backupFile_run p.headersPath (getTempDir p.buildDir ++ "/_headers") s1
  obtain ⟨s3, t3, e3, ht3, hpres3, hunl3⟩ :=
    backupFile_run p.redirectsPath (getTempDir p.buildDir ++ "/_redirects") s2
  refine ⟨s3, [FSOp.mkdirOp (getTempDir p.buildDir)] ++ t1 ++ t2 ++ t3, ?_, ?_, ?_, ?_⟩
  · simp [backupConfig, run_bind, makeDir, e1, e2, e3]
  · rw [ht3, ht2, ht1]
    simp [List.append_assoc]
  · intro q h1 h2 h3
    rw [hpres3 q h3, hpres2 q h2, hpres1 q h1]
  · intro x hx
    rcases List.mem_append.mp hx with h | h
    · rcases List.mem_append.mp h with h | h
      · rcases List.mem_append.mp h with h | h
        · simp at h
        · exact Or.inl (hunl1 x h)
      · exact Or.inr (Or.inl (hunl2 x h))
    · exact Or.inr (Or.inr (hunl3 x h))

theorem parseOptionalConfig_run (cp : String) (s : FSState) :
    ∃ c t, parseOptionalConfig cp s = some (c, ⟨s.fs, s.trace ++ t⟩) ∧
      ∀ x, FSOp.unlinkOp x ∉ t := by
  cases hc : fsLookup s.fs cp with
  | some content =>
    refine ⟨parseToml content, [FSOp.existsOp cp, FSOp.readOp cp], ?_, ?_⟩
    · simp [parseOptionalConfig, run_bind, pathExists, hc, readFileM]
    · intro x
      simp
  | none =>
    refine ⟨emptyConfig, [FSOp.existsOp cp], ?_, ?_⟩
    · simp [parseOptionalConfig, run_bind, pathExists, hc]
    · intro x
      simp

theorem mergeWithConfig_run (nc : Config) (cp : String) (s : FSState) :
    ∃ c t, mergeWithConfig nc cp s = some (c, ⟨s.fs, s.trace ++ t⟩) ∧
      ∀ x, FSOp.unlinkOp x ∉ t := by
  obtain ⟨c, t, e, hu⟩ := parseOptionalConfig_run cp s
  exact ⟨mergeConfigs c nc, t, by simp [mergeWithConfig, run_bind, e], hu⟩

theorem addConfigHeaders_run (c0 : Config) (hp : Option String) (s : FSState) :
    ∃ c t, addConfigHeaders c0 hp s = some (c, ⟨s.fs, s.trace ++ t⟩) ∧
      ∀ x, FSOp.unlinkOp x ∉ t := by
  cases hp with
  | none =>
    refine ⟨c0, [], ?_, by simp⟩
    show addConfigHeaders c0 none s = _
    simp [addConfigHeaders]
  | some p =>
    cases hc : fsLookup s.fs p with
    | some content =>
      refine ⟨{ c0 with headers := mergeOptList c0.headers (some (parseRulesFile content)) },
        [FSOp.existsOp p, FSOp.readOp p], ?_, by intro x; simp⟩
      simp [addConfigHeaders, run_bind, pathExists, hc, readFileM]
    | none =>
      refine ⟨c0, [FSOp.existsOp p], ?_, by intro x; simp⟩
      simp [addConfigHeaders, run_bind, pathExists, hc]

theorem addConfigRedirects_run (c0 : Config) (rp : Option String) (s : FSState) :
    ∃ c t, addConfigRedirects c0 rp s = some (c, ⟨s.fs, s.trace ++ t⟩) ∧
      ∀ x, FSOp.unlinkOp x ∉ t := by
  cases rp with
  | none =>
    refine ⟨c0, [], ?_, by simp⟩
    show addConfigRedirects c0 none s = _
    simp [addConfigRedirects]
  | some p =>
    cases hc : fsLookup s.fs p with
    | some content =>
      refine ⟨{ c0 with redirects := mergeOptList c0.redirects (some (parseRulesFile content)) },
        [FSOp.existsOp p, FSOp.readOp p], ?_, by intro x; simp⟩
      simp [addConfigRedirects, run_bind, pathExists, hc, readFileM]
    | none =>
      refine ⟨c0, [FSOp.existsOp p], ?_, by intro x; simp⟩
      simp [addConfigRedirects, run_bind, pathExists, hc]

theorem saveConfig_run (cp : String) (cfg : Config) (s : FSState) :
    saveConfig cp cfg s =
      some ((), ⟨fsWrite s.fs cp (serializeToml cfg),
        s.trace ++ [FSOp.writeOp cp (serializeToml cfg)]⟩) := rfl

theorem deleteSideFile_run (fp : String) (propName : String) (cfg : Config) (s : FSState) :
    ∃ s' d, deleteSideFile (some fp) propName cfg s = some ((), s') ∧
      s'.trace = s.trace ++ d ∧
      (∀ x, FSOp.unlinkOp x ∈ d → x = fp) ∧
      (FSOp.unlinkOp fp ∈ d ↔
        (¬getProp cfg propName = none ∧ (fsLookup s.fs fp).isSome = true)) ∧
      (∀ q, ¬q = fp → fsLookup s'.fs q = fsLookup s.fs q) ∧
      (¬getProp cfg propName = none → (fsLookup s.fs fp).isSome = true →
        fsLookup s'.fs fp = none) ∧
      (getProp cfg propName = none → s'.fs = s.fs) := by
  by_cases hk : getProp cfg propName = none
  · refine ⟨s, [], ?_, by simp, by simp, by simp [hk], fun q _ => rfl,
      fun h => absurd hk h, fun _ => rfl⟩
    simp [deleteSideFile, hk]
  · cases hfp : fsLookup s.fs fp with
    | some c =>
      refine ⟨⟨fsErase s.fs fp, s.trace ++ [FSOp.existsOp fp] ++ [FSOp.unlinkOp fp]⟩,
        [FSOp.existsOp fp, FSOp.unlinkOp fp], ?_, by simp, ?_, by simp [hk], ?_, ?_,
        fun h => absurd h hk⟩
      · simp [deleteSideFile, hk, run_bind, pathExists, hfp, pUnlink]
      · intro x hx
        simp at hx
        exact hx
      · intro q hq
        show fsLookup (fsErase s.fs fp) q = _
        rw [fsLookup_fsErase, if_neg hq]
      · intro _ _
        show fsLookup (fsErase s.fs fp) fp = none
        rw [fsLookup_fsErase]
        simp
    | none =>
      refine ⟨⟨s.fs, s.trace ++ [FSOp.existsOp fp]⟩, [FSOp.existsOp fp], ?_, rfl, ?_,
        by simp, fun q _ => rfl, ?_, fun _ => rfl⟩
      · simp [deleteSideFile, hk, run_bind, pathExists, hfp]
      · intro x hx
        simp at hx
      · intro _ h2
        simp at h2

theorem backupFile_backup_slot (o b : String) (s : FSState) :
    ∃ s', backupFile (some o) b s = some ((), s') ∧
      fsLookup s'.fs b = (if o = b then none else fsLookup s.fs o) ∧
      (∀ q, ¬q = b → fsLookup s'.fs q = fsLookup s.fs q) := by
  obtain ⟨s1, t1, e1, ht1, hpres1, hb1, hunl1⟩ := deleteNoError_some_run b s
  by_cases hob : o = b
  · subst hob
    refine ⟨⟨s1.fs, s1.trace ++ [FSOp.existsOp o]⟩, ?_, ?_, hpres1⟩
    · simp [backupFile, run_bind, e1, pathExists, hb1]
    · simpa using hb1
  · have ho1 : fsLookup s1.fs o = fsLookup s.fs o := hpres1 o hob
    cases ho : fsLookup s.fs o with
    | some c =>
      have ho1c : fsLookup s1.fs o = some c := ho1.trans ho
      refine ⟨⟨fsWrite s1.fs b c, s1.trace ++ [FSOp.existsOp o] ++ [FSOp.copyOp o b]⟩, ?_, ?_, ?_⟩
      · simp [backupFile, run_bind, e1, pathExists, ho1c, cpFile]
      · show fsLookup (fsWrite s1.fs b c) b = _
        rw [fsLookup_fsWrite]
        simp [hob]
      · intro q hq
        show fsLookup (fsWrite s1.fs b c) q = _
        rw [fsLookup_fsWrite, if_neg hq]
        exact hpres1 q hq
    | none =>
      have ho1n : fsLookup s1.fs o = none := ho1.trans ho
      refine ⟨⟨s1.fs, s1.trace ++ [FSOp.existsOp o]⟩, ?_, ?_, hpres1⟩
      · simp [backupFile, run_bind, e1, pathExists, ho1n]
      · show fsLookup s1.fs b = _
        rw [hb1, if_neg hob]

theorem restoreConfig_run (muts : List Mutation) (bd cp hp rp ctx br : String) (s : FSState)
    (hm : muts ≠ [])
    (h2c : ¬getTempDir bd ++ "/_headers" = cp)
    (h3c : ¬getTempDir bd ++ "/_redirects" = cp)
    (h3h : ¬getTempDir bd ++ "/_redirects" = hp) :
    ∃ s', restoreConfig muts ⟨bd, cp, some hp, some rp, ctx, br⟩ s = some ((), s') ∧
      ∀ q, fsLookup s'.fs q =
        if q = rp then fsLookup s.fs (getTempDir bd ++ "/_redirects")
        else if q = hp then fsLookup s.fs (getTempDir bd ++ "/_headers")
        else if q = cp then fsLookup s.fs (getTempDir bd ++ "/netlify.toml")
        else fsLookup s.fs q := by
  have hg : (muts.length == 0) = false := by
    cases muts with
    | nil => exact absurd rfl hm
    | cons a l => rfl
  obtain ⟨s1, e1, c1⟩ := copyOrDelete_run (getTempDir bd ++ "/netlify.toml") cp s
  obtain ⟨s2, e2, c2⟩ := copyOrDelete_run (getTempDir bd ++ "/_headers") hp s1
  obtain ⟨s3, e3, c3⟩ := copyOrDelete_run (getTempDir bd ++ "/_redirects") rp s2
  refine ⟨s3, ?_, ?_⟩
  · show restoreConfig muts ⟨bd, cp, some hp, some rp, ctx, br⟩ s = some ((), s3)
    unfold restoreConfig
    rw [hg]
    simp only [Bool.false_eq_true, if_false, run_bind, e1, e2, e3]
  · intro q
    rw [c3 q]
    by_cases hqr : q = rp
    · rw [if_pos hqr, if_pos hqr, c2 (getTempDir bd ++ "/_redirects"), if_neg h3h,
        c1 (getTempDir bd ++ "/_redirects"), if_neg h3c]
    · rw [if_neg hqr, if_neg hqr, c2 q]
      by_cases hqh : q = hp
      · rw [if_pos hqh, if_pos hqh, c1 (getTempDir bd ++ "/_headers"), if_neg h2c]
      · rw [if_neg hqh, if_neg hqh, c1 q]

/-
Claim theorems.
-/

/-- C1 counterexample: the claim asserts that `runCommand` always returns
`newIndex = index + 1`, even when the Failure-Domain Classifier rules the
command out.  At the concrete input below (a failure-only event with no build
error and no failed plugin, hence ineligible) the source returns the empty
object literal, which carries no `newIndex` at all. -/
theorem runCommand_skipped_index_cex :
    shouldRunCommand ⟨"onError", EventCategory.failureOnly⟩ "pkg" none [] = false ∧
      (runCommand (fun _ => []) ⟨"onError", EventCategory.failureOnly⟩ "pkg" 5 none []).newIndex ≠
        some (5 + 1) := by
  decide

/-- C1 (amended): when the command is eligible, the returned value carries
`newIndex = index + 1`; when the Failure-Domain Classifier rules the command
out, `runCommand` returns the empty result, which carries no sequence
position. -/
theorem runCommand_newIndex (fire : Event → List (String × String)) (event : Event)
    (packageName : String) (index : Nat) (error : Option String)
    (failedPlugins : List String) :
    (shouldRunCommand event packageName error failedPlugins = true →
      (runCommand fire event packageName index error failedPlugins).newIndex =
        some (index + 1)) ∧
    (shouldRunCommand event packageName error failedPlugins = false →
      runCommand fire event packageName index error failedPlugins =
        { fields := [], newIndex := none }) := by
  constructor <;> intro h <;> simp [runCommand, h]

/-- C1 (amended) witness: an always-eligible event with no error is eligible and
receives sequence position `index + 1`. -/
theorem runCommand_newIndex_witness :
    (runCommand (fun _ => []) ⟨"onPostBuild", EventCategory.alwaysEligible⟩ "p" 2 none
      []).newIndex = some (2 + 1) :=
  (runCommand_newIndex (fun _ => []) ⟨"onPostBuild", EventCategory.alwaysEligible⟩ "p" 2 none
    []).1 (by decide)

/-- C2: with an empty mutation log, `updateConfig` and `restoreConfig` return
the state unchanged — same file-system contents and, the trace being the log of
every read, write, copy and delete performed, zero file-system operations. -/
theorem updateConfig_restoreConfig_empty_noop (p : ConfigPaths) (s : FSState) :
    updateConfig [] p s = some ((), s) ∧ restoreConfig [] p s = some ((), s) :=
  ⟨rfl, rfl⟩

/-- C3: a package in the Failed-Plugin Set is never eligible, regardless of the
event and of the build-error state. -/
theorem shouldRunCommand_failed_plugin (event : Event) (packageName : String)
    (error : Option String) (failedPlugins : List String)
    (h : packageName ∈ failedPlugins) :
    shouldRunCommand event packageName error failedPlugins = false := by
  have hc : failedPlugins.contains packageName = true := List.elem_eq_true_of_mem h
  unfold shouldRunCommand
  rw [hc]
  rfl

/-- C3 witness at a concrete failed plugin. -/
theorem shouldRunCommand_failed_plugin_witness :
    shouldRunCommand ⟨"onEnd", EventCategory.alwaysEligible⟩ "netlify-plugin-a" none
      ["netlify-plugin-a"] = false :=
  shouldRunCommand_failed_plugin ⟨"onEnd", EventCategory.alwaysEligible⟩ "netlify-plugin-a" none
    ["netlify-plugin-a"] (by decide)

/-- C4: for a package not in the Failed-Plugin Set, eligibility with a build
error holds exactly for always-eligible and failure-only events, and without a
build error exactly for events that are not failure-only. -/
theorem shouldRunCommand_eligibility (event : Event) (packageName : String)
    (error : Option String) (failedPlugins : List String)
    (h : packageName ∉ failedPlugins) :
    (error.isSome = true →
      (shouldRunCommand event packageName error failedPlugins = true ↔
        (event.category = EventCategory.alwaysEligible ∨
          event.category = EventCategory.failureOnly))) ∧
    (error = none →
      (shouldRunCommand event packageName error failedPlugins = true ↔
        event.category ≠ EventCategory.failureOnly)) := by
  have hc : failedPlugins.contains packageName = false := by
    by_contra hcontra
    rw [Bool.not_eq_false] at hcontra
    exact h (List.mem_of_elem_eq_true hcontra)
  unfold shouldRunCommand
  rw [hc]
  constructor
  · intro he
    rw [he]
    simp only [Bool.false_eq_true, if_false, if_pos rfl]
    unfold runsAlsoOnBuildFailure
    cases event.category <;> simp
  · intro he
    subst he
    simp only [Option.isSome_none, Bool.false_eq_true, if_false]
    unfold runsOnlyOnBuildFailure
    cases event.category <;> simp

/-- C4 witness: with a build error, a failure-only event owned by a
non-failed plugin is eligible. -/
theorem shouldRunCommand_eligibility_witness :
    shouldRunCommand ⟨"onError", EventCategory.failureOnly⟩ "p" (some "boom") [] = true :=
  ((shouldRunCommand_eligibility ⟨"onError", EventCategory.failureOnly⟩ "p" (some "boom") []
    (by decide)).1 (by decide)).mpr (by decide)

/-- C6: backing a file up and then restoring it, with no mutation in between,
leaves the live path holding its original content when it existed, and leaves
the live path non-existent when it did not exist.  The backup location is a
distinct path (in the source, a fixed name under the build-scoped temporary
directory). -/
theorem backup_then_restore_roundtrip (s : FSState) (orig backup : String)
    (hne : ¬orig = backup) :
    (∀ c, fsLookup s.fs orig = some c →
      ∃ s', (backupFile (some orig) backup >>= fun _ => copyOrDelete backup (some orig)) s =
        some ((), s') ∧ fsLookup s'.fs orig = some c) ∧
    (fsLookup s.fs orig = none →
      ∃ s', (backupFile (some orig) backup >>= fun _ => copyOrDelete backup (some orig)) s =
        some ((), s') ∧ fsLookup s'.fs orig = none) := by
  obtain ⟨s1, e1, hslot, hpres⟩ := backupFile_backup_slot orig backup s
  obtain ⟨s2, e2, c2⟩ := copyOrDelete_run backup orig s1
  constructor
  · intro c hc
    refine ⟨s2, ?_, ?_⟩
    · simp [run_bind, e1, e2]
    · rw [c2 orig]
      simp [hslot, hne, hc]
  · intro hc
    refine ⟨s2, ?_, ?_⟩
    · simp [run_bind, e1, e2]
    · rw [c2 orig]
      simp [hslot, hne, hc]

/-- C6 witness: round-trip of an existing file with concrete content. -/
theorem backup_then_restore_roundtrip_witness :
    ∃ s', (backupFile (some "pub/f") "b/.netlify/deploy/netlify.toml" >>= fun _ =>
      copyOrDelete "b/.netlify/deploy/netlify.toml" (some "pub/f")) ⟨[("pub/f", "data")], []⟩ =
      some ((), s') ∧ fsLookup s'.fs "pub/f" = some "data" :=
  (backup_then_restore_roundtrip ⟨[("pub/f", "data")], []⟩ "pub/f"
    "b/.netlify/deploy/netlify.toml" (by decide)).1 "data" (by decide)

/-- C8: for a backup slot, the stale prior backup is deleted first (a missing
backup being success, the operation always returns), the source is copied into
the backup location exactly when it exists after that deletion (so the slot ends
up holding the source's content, or nothing when the source is missing), other
paths are untouched, and the overall three-slot `backupConfig` never fails. -/
theorem backupFile_delete_then_copy (s : FSState) (o b : String) :
    (∃ s', backupFile (some o) b s = some ((), s') ∧
      fsLookup s'.fs b = (if o = b then none else fsLookup s.fs o) ∧
      (∀ q, ¬q = b → fsLookup s'.fs q = fsLookup s.fs q)) ∧
    (∀ p2 s2, ∃ s2', backupConfig p2 s2 = some ((), s2')) := by
  refine ⟨backupFile_backup_slot o b s, ?_⟩
  intro p2 s2
  obtain ⟨s', t, e, -, -, -⟩ := backupConfig_run p2 s2
  exact ⟨s', e⟩

/-- C8 witness: a full `backupConfig` run succeeds on a file system with no
sources present. -/
theorem backupFile_delete_then_copy_witness :
    ∃ s2', backupConfig ⟨"b", "netlify.toml", some "_headers", none, "x", "y"⟩ ⟨[], []⟩ =
      some ((), s2') :=
  (backupFile_delete_then_copy ⟨[], []⟩ "o" "bk").2
    ⟨"b", "netlify.toml", some "_headers", none, "x", "y"⟩ ⟨[], []⟩

/-- C10: with a non-empty mutation log, `restoreConfig` called when no backup
file exists for any slot deletes every live file at the slot paths: there is no
precondition check that a backup step ever ran. -/
theorem restoreConfig_no_backup_deletes (muts : List Mutation) (p : ConfigPaths) (s : FSState)
    (hm : muts ≠ [])
    (h1 : fsLookup s.fs (getTempDir p.buildDir ++ "/netlify.toml") = none)
    (h2 : fsLookup s.fs (getTempDir p.buildDir ++ "/_headers") = none)
    (h3 : fsLookup s.fs (getTempDir p.buildDir ++ "/_redirects") = none) :
    ∃ s', restoreConfig muts p s = some ((), s') ∧
      fsLookup s'.fs p.configPath = none ∧
      (∀ hp, p.headersPath = some hp → fsLookup s'.fs hp = none) ∧
      (∀ rp, p.redirectsPath = some rp → fsLookup s'.fs rp = none) := by
  have hg : (muts.length == 0) = false := by
    cases muts with
    | nil => exact absurd rfl hm
    | cons a l => rfl
  obtain ⟨s1, e1, c1⟩ :=
    copyOrDelete_absent_run (getTempDir p.buildDir ++ "/netlify.toml") (some p.configPath) s h1
  have mono1 : ∀ q, fsLookup s.fs q = none → fsLookup s1.fs q = none := by
    intro q hq
    rw [c1 q]
    split
    · rfl
    · exact hq
  obtain ⟨s2, e2, c2⟩ :=
    copyOrDelete_absent_run (getTempDir p.buildDir ++ "/_headers") p.headersPath s1
      (mono1 _ h2)
  have mono2 : ∀ q, fsLookup s1.fs q = none → fsLookup s2.fs q = none := by
    intro q hq
    rw [c2 q]
    split
    · rfl
    · exact hq
  obtain ⟨s3, e3, c3⟩ :=
    copyOrDelete_absent_run (getTempDir p.buildDir ++ "/_redirects") p.redirectsPath s2
      (mono2 _ (mono1 _ h3))
  have mono3 : ∀ q, fsLookup s2.fs q = none → fsLookup s3.fs q = none := by
    intro q hq
    rw [c3 q]
    split
    · rfl
    · exact hq
  refine ⟨s3, ?_, ?_, ?_, ?_⟩
  · show restoreConfig muts p s = some ((), s3)
    unfold restoreConfig
    rw [hg]
    simp only [Bool.false_eq_true, if_false, run_bind, e1, e2, e3]
  · have hcp1 : fsLookup s1.fs p.configPath = none := by
      rw [c1]
      simp
    exact mono3 _ (mono2 _ hcp1)
  · intro hp hhp
    refine mono3 _ ?_
    rw [c2]
    simp [hhp]
  · intro rp hrp
    rw [c3]
    simp [hrp]

/-- C10 witness: live configuration and side files get deleted by a restore
without a preceding backup. -/
theorem restoreConfig_no_backup_deletes_witness :
    ∃ s', restoreConfig [⟨"headers", MutOp.replace, ["h1"]⟩]
        ⟨"b", "netlify.toml", some "_headers", some "_redirects", "x", "y"⟩
        ⟨[("netlify.toml", "cfg"), ("_headers", "hh")], []⟩ = some ((), s') ∧
      fsLookup s'.fs "netlify.toml" = none ∧
      (∀ hp, (some "_headers" : Option String) = some hp → fsLookup s'.fs hp = none) ∧
      (∀ rp, (some "_redirects" : Option String) = some rp → fsLookup s'.fs rp = none) :=
  restoreConfig_no_backup_deletes [⟨"headers", MutOp.replace, ["h1"]⟩]
    ⟨"b", "netlify.toml", some "_headers", some "_redirects", "x", "y"⟩
    ⟨[("netlify.toml", "cfg"), ("_headers", "hh")], []⟩
    (by decide) (by decide) (by decide) (by decide)

/-- C7 counterexample: the claim quantifies over every path set, but when a live
path aliases a backup path the second restore reads a backup that the first
restore overwrote.  Here the redirects path is the configuration file's backup
path: after one restore the configuration file holds "A", after two it holds
"C", so the final on-disk states differ. -/
theorem restoreConfig_twice_cex :
    (runLookup (restoreConfig [⟨"headers", MutOp.replace, ["h1"]⟩]
        ⟨"b", "cfg", some "h", some "b/.netlify/deploy/netlify.toml", "x", "y"⟩)
      ⟨[("b/.netlify/deploy/netlify.toml", "A"), ("b/.netlify/deploy/_redirects", "C")], []⟩
      "cfg" = some (some "A")) ∧
    (((restoreConfig [⟨"headers", MutOp.replace, ["h1"]⟩]
        ⟨"b", "cfg", some "h", some "b/.netlify/deploy/netlify.toml", "x", "y"⟩
        ⟨[("b/.netlify/deploy/netlify.toml", "A"), ("b/.netlify/deploy/_redirects", "C")],
          []⟩).bind
      (fun x => runLookup (restoreConfig [⟨"headers", MutOp.replace, ["h1"]⟩]
        ⟨"b", "cfg", some "h", some "b/.netlify/deploy/netlify.toml", "x", "y"⟩) x.2 "cfg")) =
      some (some "C")) := by
  decide

/-- C7 (amended): with a non-empty mutation log and live paths that do not alias
any of the three backup paths under the build-scoped temporary directory,
calling `restoreConfig` twice in succession yields the same final on-disk
contents at every path as calling it once. -/
theorem restoreConfig_idempotent (muts : List Mutation) (bd cp hp rp ctx br : String)
    (s : FSState) (hm : muts ≠ [])
    (hb1c : ¬getTempDir bd ++ "/netlify.toml" = cp)
    (hb1h : ¬getTempDir bd ++ "/netlify.toml" = hp)
    (hb1r : ¬getTempDir bd ++ "/netlify.toml" = rp)
    (hb2c : ¬getTempDir bd ++ "/_headers" = cp)
    (hb2h : ¬getTempDir bd ++ "/_headers" = hp)
    (hb2r : ¬getTempDir bd ++ "/_headers" = rp)
    (hb3c : ¬getTempDir bd ++ "/_redirects" = cp)
    (hb3h : ¬getTempDir bd ++ "/_redirects" = hp)
    (hb3r : ¬getTempDir bd ++ "/_redirects" = rp) :
    ∃ s1, restoreConfig muts ⟨bd, cp, some hp, some rp, ctx, br⟩ s = some ((), s1) ∧
      ∃ s2, restoreConfig muts ⟨bd, cp, some hp, some rp, ctx, br⟩ s1 = some ((), s2) ∧
        ∀ q, fsLookup s2.fs q = fsLookup s1.fs q := by
  obtain ⟨s1, e1, c1⟩ := restoreConfig_run muts bd cp hp rp ctx br s hm hb2c hb3c hb3h
  obtain ⟨s2, e2, c2⟩ := restoreConfig_run muts bd cp hp rp ctx br s1 hm hb2c hb3c hb3h
  have hv1 : fsLookup s1.fs (getTempDir bd ++ "/netlify.toml") =
      fsLookup s.fs (getTempDir bd ++ "/netlify.toml") := by
    rw [c1 (getTempDir bd ++ "/netlify.toml"), if_neg hb1r, if_neg hb1h, if_neg hb1c]
  have hv2 : fsLookup s1.fs (getTempDir bd ++ "/_headers") =
      fsLookup s.fs (getTempDir bd ++ "/_headers") := by
    rw [c1 (getTempDir bd ++ "/_headers"), if_neg hb2r, if_neg hb2h, if_neg hb2c]
  have hv3 : fsLookup s1.fs (getTempDir bd ++ "/_redirects") =
      fsLookup s.fs (getTempDir bd ++ "/_redirects") := by
    rw [c1 (getTempDir bd ++ "/_redirects"), if_neg hb3r, if_neg hb3h, if_neg hb3c]
  refine ⟨s1, e1, s2, e2, ?_⟩
  intro q
  rw [c2 q]
  by_cases hqr : q = rp
  · rw [if_pos hqr, hv3, c1 q, if_pos hqr]
  · rw [if_neg hqr]
    by_cases hqh : q = hp
    · rw [if_pos hqh, hv2, c1 q, if_neg hqr, if_pos hqh]
    · rw [if_neg hqh]
      by_cases hqc : q = cp
      · rw [if_pos hqc, hv1, c1 q, if_neg hqr, if_neg hqh, if_pos hqc]
      · rw [if_neg hqc]

/-- C7 (amended) witness: idempotence of restore at the conventional path
layout. -/
theorem restoreConfig_idempotent_witness :
    ∃ s1, restoreConfig [⟨"headers", MutOp.replace, ["h1"]⟩]
        ⟨"b", "netlify.toml", some "_headers", some "_redirects", "x", "y"⟩
        ⟨[("netlify.toml", "orig")], []⟩ = some ((), s1) ∧
      ∃ s2, restoreConfig [⟨"headers", MutOp.replace, ["h1"]⟩]
          ⟨"b", "netlify.toml", some "_headers", some "_redirects", "x", "y"⟩ s1 =
          some ((), s2) ∧
        ∀ q, fsLookup s2.fs q = fsLookup s1.fs q :=
  restoreConfig_idempotent [⟨"headers", MutOp.replace, ["h1"]⟩] "b" "netlify.toml" "_headers"
    "_redirects" "x" "y" ⟨[("netlify.toml", "orig")], []⟩ (by decide) (by decide) (by decide)
    (by decide) (by decide) (by decide) (by decide) (by decide) (by decide) (by decide)

/-- C5 (amended): for a non-empty mutation log, with the live paths pairwise
distinct and distinct from the three backup paths, `updateConfig` deletes the
headers (respectively redirects) side file — an unlink of that path appears in
the operation trace — exactly when the corresponding key is present in the
normalized Inline Configuration, the path is supplied, and the file existed;
side files whose kind never appears in the Inline Configuration keep their
content. -/
theorem updateConfig_side_file_deletion (muts : List Mutation) (bd cp hp rp ctx br : String)
    (s : FSState) (hm : muts ≠ []) (htr : s.trace = [])
    (hhc : ¬hp = cp) (hrc : ¬rp = cp) (hrh : ¬rp = hp)
    (hh1 : ¬hp = getTempDir bd ++ "/netlify.toml")
    (hh2 : ¬hp = getTempDir bd ++ "/_headers")
    (hh3 : ¬hp = getTempDir bd ++ "/_redirects")
    (hr1 : ¬rp = getTempDir bd ++ "/netlify.toml")
    (hr2 : ¬rp = getTempDir bd ++ "/_headers")
    (hr3 : ¬rp = getTempDir bd ++ "/_redirects") :
    ∃ s', updateConfig muts ⟨bd, cp, some hp, some rp, ctx, br⟩ s = some ((), s') ∧
      ((FSOp.unlinkOp hp ∈ s'.trace) ↔
        (¬(ensureConfigPriority (applyMutations emptyConfig muts) ctx br).headers = none ∧
          (fsLookup s.fs hp).isSome = true)) ∧
      ((FSOp.unlinkOp rp ∈ s'.trace) ↔
        (¬(ensureConfigPriority (applyMutations emptyConfig muts) ctx br).redirects = none ∧
          (fsLookup s.fs rp).isSome = true)) ∧
      ((ensureConfigPriority (applyMutations emptyConfig muts) ctx br).headers = none →
        fsLookup s'.fs hp = fsLookup s.fs hp) ∧
      ((ensureConfigPriority (applyMutations emptyConfig muts) ctx br).redirects = none →
        fsLookup s'.fs rp = fsLookup s.fs rp) := by
  have hhr : ¬hp = rp := fun h => hrh h.symm
  have hg : (muts.length == 0) = false := by
    cases muts with
    | nil => exact absurd rfl hm
    | cons a l => rfl
  obtain ⟨cfgA, tA, eA, huA⟩ :=
    mergeWithConfig_run (ensureConfigPriority (applyMutations emptyConfig muts) ctx br) cp s
  obtain ⟨cfgB, tB, eB, huB⟩ := addConfigHeaders_run cfgA (some hp) ⟨s.fs, s.trace ++ tA⟩
  obtain ⟨cfgC, tC, eC, huC⟩ :=
    addConfigRedirects_run cfgB (some rp) ⟨s.fs, (s.trace ++ tA) ++ tB⟩
  obtain ⟨sD, tD, eD, htD, hpresD, hunlD⟩ :=
    backupConfig_run ⟨bd, cp, some hp, some rp, ctx, br⟩
      ⟨s.fs, ((s.trace ++ tA) ++ tB) ++ tC⟩
  have eE := saveConfig_run cp (simplifyConfig cfgC) sD
  obtain ⟨sF1, d1, eF1, htF1, hd1fp, hd1iff, hpresF1, hdelF1, hkeepF1⟩ :=
    deleteSideFile_run hp "headers"
      (ensureConfigPriority (applyMutations emptyConfig muts) ctx br)
      ⟨fsWrite sD.fs cp (serializeToml (simplifyConfig cfgC)),
        sD.trace ++ [FSOp.writeOp cp (serializeToml (simplifyConfig cfgC))]⟩
  obtain ⟨sF2, d2, eF2, htF2, hd2fp, hd2iff, hpresF2, hdelF2, hkeepF2⟩ :=
    deleteSideFile_run rp "redirects"
      (ensureConfigPriority (applyMutations emptyConfig muts) ctx br) sF1
  have hDhp : fsLookup sD.fs hp = fsLookup s.fs hp := hpresD hp hh1 hh2 hh3
  have hDrp : fsLookup sD.fs rp = fsLookup s.fs rp := hpresD rp hr1 hr2 hr3
  have hEhp : fsLookup (fsWrite sD.fs cp (serializeToml (simplifyConfig cfgC))) hp =
      fsLookup s.fs hp := by
    rw [fsLookup_fsWrite, if_neg hhc, hDhp]
  have hErp : fsLookup (fsWrite sD.fs cp (serializeToml (simplifyConfig cfgC))) rp =
      fsLookup s.fs rp := by
    rw [fsLookup_fsWrite, if_neg hrc, hDrp]
  have hF1rp : fsLookup sF1.fs rp = fsLookup s.fs rp := (hpresF1 rp hrh).trans hErp
  have hnoD : ∀ x, FSOp.unlinkOp x ∈ sD.trace →
      x = getTempDir bd ++ "/netlify.toml" ∨ x = getTempDir bd ++ "/_headers" ∨
        x = getTempDir bd ++ "/_redirects" := by
    intro x hx
    rw [htD] at hx
    rcases List.mem_append.mp hx with h | h
    · have h' : FSOp.unlinkOp x ∈ ((s.trace ++ tA) ++ tB) ++ tC := h
      rcases List.mem_append.mp h' with h2 | h2
      · rcases List.mem_append.mp h2 with h3 | h3
        · rcases List.mem_append.mp h3 with h4 | h4
          · rw [htr] at h4
            simp at h4
          · exact absurd h4 (huA x)
        · exact absurd h3 (huB x)
      · exact absurd h2 (huC x)
    · exact hunlD x h
  have hnoEhp : FSOp.unlinkOp hp ∉
      sD.trace ++ [FSOp.writeOp cp (serializeToml (simplifyConfig cfgC))] := by
    intro hx
    rcases List.mem_append.mp hx with h | h
    · rcases hnoD hp h with h1 | h1 | h1
      exacts [hh1 h1, hh2 h1, hh3 h1]
    · simp at h
  have hnoErp : FSOp.unlinkOp rp ∉
      sD.trace ++ [FSOp.writeOp cp (serializeToml (simplifyConfig cfgC))] := by
    intro hx
    rcases List.mem_append.mp hx with h | h
    · rcases hnoD rp h with h1 | h1 | h1
      exacts [hr1 h1, hr2 h1, hr3 h1]
    · simp at h
  refine ⟨sF2, ?_, ?_, ?_, ?_, ?_⟩
  · show updateConfig muts ⟨bd, cp, some hp, some rp, ctx, br⟩ s = some ((), sF2)
    unfold updateConfig
    rw [hg]
    simp only [Bool.false_eq_true, if_false, run_bind, eA, eB, eC, eD, eE, eF1, eF2]
  · rw [htF2, htF1]
    constructor
    · intro hx
      rcases List.mem_append.mp hx with h | h
      · rcases List.mem_append.mp h with h2 | h2
        · exact absurd h2 hnoEhp
        · obtain ⟨hk, hsome⟩ := hd1iff.mp h2
          refine ⟨hk, ?_⟩
          rw [← hEhp]
          exact hsome
      · exact absurd (hd2fp hp h) hhr
    · rintro ⟨hk, hsome⟩
      refine List.mem_append.mpr (Or.inl (List.mem_append.mpr (Or.inr ?_)))
      refine hd1iff.mpr ⟨hk, ?_⟩
      show (fsLookup (fsWrite sD.fs cp (serializeToml (simplifyConfig cfgC))) hp).isSome = true
      rw [hEhp]
      exact hsome
  · rw [htF2, htF1]
    constructor
    · intro hx
      rcases List.mem_append.mp hx with h | h
      · rcases List.mem_append.mp h with h2 | h2
        · exact absurd h2 hnoErp
        · exact absurd (hd1fp rp h2) hrh
      · obtain ⟨hk, hsome⟩ := hd2iff.mp h
        refine ⟨hk, ?_⟩
        rw [← hF1rp]
        exact hsome
    · rintro ⟨hk, hsome⟩
      refine List.mem_append.mpr (Or.inr ?_)
      refine hd2iff.mpr ⟨hk, ?_⟩
      rw [hF1rp]
      exact hsome
  · intro hk
    rw [hpresF2 hp hhr, hkeepF1 hk]
    exact hEhp
  · intro hk
    rw [hkeepF2 hk]
    exact hF1rp

/-- C5 counterexample: the claim quantifies over every path set and asserts that
side files whose kind never appears in the Inline Configuration are left in
place.  When the headers side-file path aliases its own backup path
(`<buildDir>/.netlify/deploy/_headers`), the backup step's stale-backup deletion
removes the live side file even though the mutation log never touches headers:
the headers key of the normalized Inline Configuration is `none`, the file
existed, and after `updateConfig` it is gone. -/
theorem updateConfig_side_file_deletion_cex :
    ((ensureConfigPriority (applyMutations emptyConfig [⟨"other", MutOp.replace, ["v"]⟩])
      "x" "y").headers = none) ∧
    (fsLookup [("b/.netlify/deploy/_headers", "user-headers")] "b/.netlify/deploy/_headers" =
      some "user-headers") ∧
    (runLookup (updateConfig [⟨"other", MutOp.replace, ["v"]⟩]
        ⟨"b", "netlify.toml", some "b/.netlify/deploy/_headers", some "_redirects", "x", "y"⟩)
      ⟨[("b/.netlify/deploy/_headers", "user-headers")], []⟩ "b/.netlify/deploy/_headers" =
      some none) := by
  decide

/-- C5 (amended) witness: at the conventional path layout with a headers
mutation and an existing headers side file. -/
theorem updateConfig_side_file_deletion_witness :
    ∃ s', updateConfig [⟨"headers", MutOp.replace, ["h1"]⟩]
        ⟨"b", "netlify.toml", some "_headers", some "_redirects", "x", "y"⟩
        ⟨[("_headers", "hh")], []⟩ = some ((), s') ∧
      ((FSOp.unlinkOp "_headers" ∈ s'.trace) ↔
        (¬(ensureConfigPriority
            (applyMutations emptyConfig [⟨"headers", MutOp.replace, ["h1"]⟩]) "x" "y").headers =
              none ∧
          (fsLookup (⟨[("_headers", "hh")], []⟩ : FSState).fs "_headers").isSome = true)) ∧
      ((FSOp.unlinkOp "_redirects" ∈ s'.trace) ↔
        (¬(ensureConfigPriority
            (applyMutations emptyConfig [⟨"headers", MutOp.replace, ["h1"]⟩]) "x"
              "y").redirects = none ∧
          (fsLookup (⟨[("_headers", "hh")], []⟩ : FSState).fs "_redirects").isSome = true)) ∧
      ((ensureConfigPriority
          (applyMutations emptyConfig [⟨"headers", MutOp.replace, ["h1"]⟩]) "x" "y").headers =
            none →
        fsLookup s'.fs "_headers" =
          fsLookup (⟨[("_headers", "hh")], []⟩ : FSState).fs "_headers") ∧
      ((ensureConfigPriority
          (applyMutations emptyConfig [⟨"headers", MutOp.replace, ["h1"]⟩]) "x" "y").redirects =
            none →
        fsLookup s'.fs "_redirects" =
          fsLookup (⟨[("_headers", "hh")], []⟩ : FSState).fs "_redirects") :=
  updateConfig_side_file_deletion [⟨"headers", MutOp.replace, ["h1"]⟩] "b" "netlify.toml"
    "_headers" "_redirects" "x" "y" ⟨[("_headers", "hh")], []⟩ (by decide) rfl (by decide)
    (by decide) (by decide) (by decide) (by decide) (by decide) (by decide) (by decide)
    (by decide)

/-- C9: given the single rewrite `/api -> /.netlify/functions/api`, no
redirects and no existing `_redirects` file, the writer produces a file whose
whole body is the header comment, a blank line and the single rewrite line;
and whenever a `_redirects` file pre-exists whose content lacks the
header-comment marker, the new content is appended to it (after a blank
separator) instead of overwriting it. -/
theorem writeRedirectsFile_spec :
    (runLookup (writeRedirectsFile "b" [] [⟨"/api", "/.netlify/functions/api"⟩]) ⟨[], []⟩
      "b/_redirects" =
      some (some (HEADER_COMMENT ++ "\n\n" ++ "/api  /.netlify/functions/api  200"))) ∧
    (∀ (bd content : String) (rds : List Redirect) (rws : List Rewrite) (s : FSState),
      fsLookup s.fs (bd ++ "/_redirects") = some content →
      containsMarker content = false →
      (rds ≠ [] ∨ rws ≠ []) →
      ∃ s', writeRedirectsFile bd rds rws s = some ((), s') ∧
        fsLookup s'.fs (bd ++ "/_redirects") =
          some (content ++ ("\n\n" ++ redirectsData rds rws))) := by
  constructor
  · decide
  · intro bd content rds rws s hc hm hne
    have hg : (rds.isEmpty && rws.isEmpty) = false := by
      cases rds with
      | cons a l => rfl
      | nil =>
        cases rws with
        | cons a l => rfl
        | nil =>
          rcases hne with h | h
          · exact absurd rfl h
          · exact absurd rfl h
    refine ⟨⟨fsWrite s.fs (bd ++ "/_redirects") (content ++ ("\n\n" ++ redirectsData rds rws)),
      s.trace ++ [FSOp.existsOp (bd ++ "/_redirects"), FSOp.readOp (bd ++ "/_redirects"),
        FSOp.writeOp (bd ++ "/_redirects")
          (content ++ ("\n\n" ++ redirectsData rds rws))]⟩, ?_, ?_⟩
    · simp [writeRedirectsFile, run_bind, hg, pathExists, hc, readFileM, hm, appendFile,
        redirectsData]
    · simp [fsLookup_fsWrite]

/-- C9 witness: appending to a pre-existing user-authored `_redirects` file. -/
theorem writeRedirectsFile_spec_witness :
    ∃ s', writeRedirectsFile "w" [] [⟨"/api", "/f"⟩]
        ⟨[("w/_redirects", "/x  /y  301")], []⟩ = some ((), s') ∧
      fsLookup s'.fs ("w" ++ "/_redirects") =
        some ("/x  /y  301" ++ ("\n\n" ++ redirectsData [] [⟨"/api", "/f"⟩])) :=
  writeRedirectsFile_spec.2 "w" "/x  /y  301" [] [⟨"/api", "/f"⟩]
    ⟨[("w/_redirects", "/x  /y  301")], []⟩ (by decide) (by decide) (Or.inr (by decide))
